import Mathlib

/-!
# Verification of the curator-agent vault ledger

A shallow embedding, over exact rationals, of the two-tier share-based
asset-allocation ledger: fixed 6-decimal-place rounding primitives
(`precision.py`), the sub-vault ledger (`logarithm_vault.py`), the
aggregator ledger (`meta_vault.py`) and the batch validators
(`validate_actions.py`).  Amounts are modelled as `ℚ`; Python exceptions
are modelled with `Except` / an explicit error payload carrying the
partially-mutated state where the source would leave one behind.
-/

namespace CuratorAgent

/-! ## precision.py -/

/-- `ceil_to_6dp(amount) = math.ceil(amount * 1e6) / 1e6`. -/
def ceil_to_6dp (amount : ℚ) : ℚ := (⌈amount * 1000000⌉ : ℚ) / 1000000

/-- `floor_to_6dp(amount) = math.floor(amount * 1e6) / 1e6`. -/
def floor_to_6dp (amount : ℚ) : ℚ := (⌊amount * 1000000⌋ : ℚ) / 1000000

/-! ## Error taxonomy

One constructor per distinct `raise` site reachable in the embedded code,
plus `zeroDivision` for Python's implicit `ZeroDivisionError`. -/

inductive Err where
  | negativeAssets        -- "Assets must be greater than 0"
  | negativeShares        -- "Shares must be greater than 0"
  | sharesExceedHeld      -- "Shares to redeem are greater than the available shares"
  | notEnoughAllocated    -- "Not enough allocated assets"
  | notEnoughShares       -- "Not enough shares available to withdraw the requested assets"
  | nonPositiveSharePrice -- "Share price must be greater than 0"
  | negativeStateFigures  -- "Idle assets and pending withdrawals must be greater than 0"
  | bothPositive          -- "Idle assets and pending withdrawals cannot be both greater than 0"
  | emptyBatch            -- "Targets and amounts Lists cannot be empty"
  | lengthMismatch        -- "Targets and amounts must have the same length"
  | notAVault             -- "Target must be a logarithm vault"
  | negativeAmount        -- "Asset/Share amount must be greater than 0"
  | amountExceedsTarget   -- amount/share exceeds the target's shares or balance
  | insufficientIdle      -- "Assets to allocate are greater than the available assets"
  | assetsExceedTotal     -- "Assets to withdraw are greater than the available assets"
  | zeroDivision          -- Python ZeroDivisionError
  | keyError              -- Python KeyError on a missing balances entry
  deriving DecidableEq, Repr

/-! ## logarithm_vault.py -/

/-- `LogarithmVaultGlobalState`. -/
structure LogarithmVaultGlobalState where
  share_price : ℚ := 1
  idle_assets : ℚ := 0
  pending_withdrawals : ℚ := 0
  deriving DecidableEq, Repr

/-- `LogarithmVaultInternalState`. -/
structure LogarithmVaultInternalState where
  shares : ℚ := 0
  open_assets : ℚ := 0
  deriving DecidableEq, Repr

/-- A `LogarithmVault` entity: the two cost rates fixed at construction
plus the current global and internal state. -/
structure LogarithmVault where
  entry_cost_rate : ℚ := 35 / 10000
  exit_cost_rate : ℚ := 35 / 10000
  gstate : LogarithmVaultGlobalState := {}
  istate : LogarithmVaultInternalState := {}
  deriving DecidableEq, Repr

namespace LogarithmVault

/-- `_cost_on_raw(assets, cost_rate) = ceil_to_6dp(assets * cost_rate)`. -/
def cost_on_raw (assets cost_rate : ℚ) : ℚ := ceil_to_6dp (assets * cost_rate)

/-- `_cost_on_total(assets, cost_rate) = ceil_to_6dp(assets * cost_rate / (1 + cost_rate))`. -/
def cost_on_total (assets cost_rate : ℚ) : ℚ :=
  ceil_to_6dp (assets * cost_rate / (1 + cost_rate))

/-- `preview_deposit`: entry fee on the part of `assets` above
current `pending_withdrawals`, shares floored to 6 dp. -/
def preview_deposit (v : LogarithmVault) (assets : ℚ) : ℚ :=
  let assets_to_utilize :=
    if assets > v.gstate.pending_withdrawals then assets - v.gstate.pending_withdrawals else 0
  let entry_cost := cost_on_total assets_to_utilize v.entry_cost_rate
  let assets_after_entry_cost := assets - entry_cost
  floor_to_6dp (assets_after_entry_cost / v.gstate.share_price)

/-- `preview_redeem`: gross floored to 6 dp, exit fee on the part of the
gross above current `idle_assets`, result floored to 6 dp. -/
def preview_redeem (v : LogarithmVault) (shares : ℚ) : ℚ :=
  let assets := floor_to_6dp (shares * v.gstate.share_price)
  let assets_to_deutilize :=
    if assets > v.gstate.idle_assets then assets - v.gstate.idle_assets else 0
  let exit_cost := cost_on_total assets_to_deutilize v.exit_cost_rate
  floor_to_6dp (assets - exit_cost)

/-- `preview_withdraw`: exit fee (on-raw) added on top of the requested
net amount, shares ceiled to 6 dp. -/
def preview_withdraw (v : LogarithmVault) (assets : ℚ) : ℚ :=
  let assets_from_deutilize :=
    if assets > v.gstate.idle_assets then assets - v.gstate.idle_assets else 0
  let exit_cost := cost_on_raw assets_from_deutilize v.exit_cost_rate
  ceil_to_6dp ((assets + exit_cost) / v.gstate.share_price)

/-- `balance = preview_redeem(internal shares)`. -/
def balance (v : LogarithmVault) : ℚ := v.preview_redeem v.istate.shares

/-- `_update_internal_state(delta_shares, delta_assets)`: add the deltas and
reset `open_assets` to 0 when the share balance lands exactly on 0. -/
def update_internal_state (i : LogarithmVaultInternalState) (delta_shares delta_assets : ℚ) :
    LogarithmVaultInternalState :=
  let shares := i.shares + delta_shares
  let open_assets := i.open_assets + delta_assets
  if shares = 0 then ⟨shares, 0⟩ else ⟨shares, open_assets⟩

/-- `action_deposit(assets) -> shares` (state-passing). -/
def action_deposit (v : LogarithmVault) (assets : ℚ) : Except Err (ℚ × LogarithmVault) :=
  if assets < 0 then .error .negativeAssets
  else
    let shares_to_mint := v.preview_deposit assets
    .ok (shares_to_mint, { v with istate := update_internal_state v.istate shares_to_mint assets })

/-- `action_redeem(shares) -> assets` (state-passing). -/
def action_redeem (v : LogarithmVault) (shares : ℚ) : Except Err (ℚ × LogarithmVault) :=
  if shares < 0 then .error .negativeShares
  else if shares > v.istate.shares then .error .sharesExceedHeld
  else
    let assets_to_withdraw := v.preview_redeem shares
    .ok (assets_to_withdraw,
      { v with istate := update_internal_state v.istate (-shares) (-assets_to_withdraw) })

/-- `action_withdraw(assets) -> shares burned` (state-passing): full exit when
`assets` equals the current balance, otherwise burn `preview_withdraw assets`. -/
def action_withdraw (v : LogarithmVault) (assets : ℚ) : Except Err (ℚ × LogarithmVault) :=
  if assets < 0 then .error .negativeAssets
  else
    let allocated_assets := v.balance
    if assets = allocated_assets then
      let shares_to_burn := v.istate.shares
      .ok (shares_to_burn,
        { v with istate := update_internal_state v.istate (-shares_to_burn) (-allocated_assets) })
    else if assets > allocated_assets then .error .notEnoughAllocated
    else
      let shares_to_burn := v.preview_withdraw assets
      if shares_to_burn > v.istate.shares then .error .notEnoughShares
      else
        .ok (shares_to_burn,
          { v with istate := update_internal_state v.istate (-shares_to_burn) (-assets) })

/-- `update_state(state)`: replace the global state after validating it. -/
def update_state (v : LogarithmVault) (state : LogarithmVaultGlobalState) :
    Except Err LogarithmVault :=
  if state.share_price ≤ 0 then .error .nonPositiveSharePrice
  else if state.idle_assets < 0 ∨ state.pending_withdrawals < 0 then .error .negativeStateFigures
  else if state.idle_assets > 0 ∧ state.pending_withdrawals > 0 then .error .bothPositive
  else .ok { v with gstate := state }

end LogarithmVault

/-! ## meta_vault.py

Sub-vaults are registered in a pool `vaults : List LogarithmVault` and a
target (`NamedEntity`) is its index in that pool; the Python
`isinstance(target.entity, LogarithmVault)` check corresponds to the index
being in range.  Batch operations return `MetaVault × Option Err`: on an
error the returned state is the one the Python object holds at the moment
the exception propagates (mutated-so-far for a mid-loop failure). -/

/-- `DUST = 0.000001`. -/
def DUST : ℚ := 1 / 1000000

/-- The `MetaVault` entity together with its registered sub-vault pool. -/
structure MetaVault where
  assets : ℚ := 0                               -- `_assets`
  cumulative_requested_withdrawals : ℚ := 0
  total_supply : ℚ := 0                          -- internal state
  allocated_vaults : List Nat := []              -- `_allocated_vaults`, by name = index
  vaults : List LogarithmVault := []             -- registered sub-vault pool
  deriving DecidableEq, Repr

namespace MetaVault

/-- `idle_assets = max(0, _assets - cumulative_requested_withdrawals)`. -/
def idle_assets (m : MetaVault) : ℚ :=
  let idle := m.assets - m.cumulative_requested_withdrawals
  if idle > 0 then idle else 0

/-- `pending_withdrawals = max(0, cumulative_requested_withdrawals - _assets)`. -/
def pending_withdrawals (m : MetaVault) : ℚ :=
  let requested := m.cumulative_requested_withdrawals - m.assets
  if requested > 0 then requested else 0

/-- `allocated_assets = Σ balance` over the allocated vaults. -/
def allocated_assets (m : MetaVault) : ℚ :=
  (m.allocated_vaults.map (fun t => (m.vaults.getD t {}).balance)).sum

/-- `total_assets = idle_assets + allocated_assets - pending_withdrawals`. -/
def total_assets (m : MetaVault) : ℚ :=
  m.idle_assets + m.allocated_assets - m.pending_withdrawals

/-- `action_withdraw(assets) -> shares burned`.  The division
`assets * total_supply / total_assets` raises `ZeroDivisionError` in Python
when `total_assets == 0` (reachable only with `assets == 0`): modelled by the
explicit `zeroDivision` branch placed after the two guards, exactly where the
division happens in the source. -/
def action_withdraw (m : MetaVault) (assets : ℚ) : Except Err (ℚ × MetaVault) :=
  if assets < 0 then .error .negativeAssets
  else if assets > m.total_assets then .error .assetsExceedTotal
  else if m.total_assets = 0 then .error .zeroDivision
  else
    let shares_to_burn := assets * m.total_supply / m.total_assets
    let m' :=
      if m.idle_assets ≥ assets then { m with assets := m.assets - assets }
      else
        { m with
          assets := m.assets - m.idle_assets,
          cumulative_requested_withdrawals :=
            m.cumulative_requested_withdrawals + (assets - m.idle_assets) }
    .ok (shares_to_burn, { m' with total_supply := m'.total_supply - shares_to_burn })

/-- `shortfall = sum(amounts) - idle`; `amounts[0] -= shortfall if shortfall > 0 else 0`. -/
def shortfall_adjust (amounts : List ℚ) (idle : ℚ) : List ℚ :=
  let shortfall := amounts.sum - idle
  match amounts with
  | [] => []
  | a :: rest => (a - if shortfall > 0 then shortfall else 0) :: rest

/-- `amounts = [amount if amount > DUST else 0 for amount in amounts]`. -/
def dust_filter (amounts : List ℚ) : List ℚ :=
  amounts.map (fun a => if a > DUST then a else 0)

/-- Apply loop of `action_allocate_assets`: deposit into each target,
decrement `_assets`, append the target to `_allocated_vaults` when not yet
present (unconditionally on the amount). -/
def apply_allocations : MetaVault → List (Nat × ℚ) → MetaVault × Option Err
  | m, [] => (m, none)
  | m, (t, amount) :: rest =>
    match m.vaults[t]? with
    | none => (m, some .notAVault)
    | some v =>
      match v.action_deposit amount with
      | .error e => (m, some e)
      | .ok (_, v') =>
        apply_allocations
          { m with
            vaults := m.vaults.set t v',
            assets := m.assets - amount,
            allocated_vaults :=
              if t ∈ m.allocated_vaults then m.allocated_vaults
              else m.allocated_vaults ++ [t] }
          rest

/-- `action_allocate_assets(targets, amounts)`. -/
def action_allocate_assets (m : MetaVault) (targets : List Nat) (amounts : List ℚ) :
    MetaVault × Option Err :=
  if targets = [] ∨ amounts = [] then (m, some .emptyBatch)
  else if targets.length ≠ amounts.length then (m, some .lengthMismatch)
  else if ¬ ∀ t ∈ targets, t < m.vaults.length then (m, some .notAVault)
  else if ¬ ∀ a ∈ amounts, ¬ a < 0 then (m, some .negativeAmount)
  else
    let amounts' := dust_filter (shortfall_adjust amounts m.idle_assets)
    if amounts'.sum > m.idle_assets then (m, some .insufficientIdle)
    else apply_allocations m (targets.zip amounts')

/-- Pre-validation loop of `action_redeem_allocations`: per pair, amount
non-negative and at most the target's internal share balance. -/
def validate_redeem_pairs (m : MetaVault) : List (Nat × ℚ) → Option Err
  | [] => none
  | (t, amount) :: rest =>
    if amount < 0 then some .negativeAmount
    else
      match m.vaults[t]? with
      | none => some .notAVault
      | some v =>
        if amount > v.istate.shares then some .amountExceedsTarget
        else validate_redeem_pairs m rest

/-- Apply loop of `action_redeem_allocations`: redeem from each target, add
the returned assets to `_assets`, drop the target from `_allocated_vaults`
when its share balance reaches 0. -/
def apply_redeem_allocations : MetaVault → List (Nat × ℚ) → MetaVault × Option Err
  | m, [] => (m, none)
  | m, (t, amount) :: rest =>
    match m.vaults[t]? with
    | none => (m, some .notAVault)
    | some v =>
      match v.action_redeem amount with
      | .error e => (m, some e)
      | .ok (assets, v') =>
        apply_redeem_allocations
          { m with
            vaults := m.vaults.set t v',
            assets := m.assets + assets,
            allocated_vaults :=
              if v'.istate.shares = 0 then m.allocated_vaults.filter (fun x => x ≠ t)
              else m.allocated_vaults }
          rest

/-- `action_redeem_allocations(targets, amounts)`. -/
def action_redeem_allocations (m : MetaVault) (targets : List Nat) (amounts : List ℚ) :
    MetaVault × Option Err :=
  if targets = [] ∨ amounts = [] then (m, some .emptyBatch)
  else if targets.length ≠ amounts.length then (m, some .lengthMismatch)
  else if ¬ ∀ t ∈ targets, t < m.vaults.length then (m, some .notAVault)
  else
    match validate_redeem_pairs m (targets.zip amounts) with
    | some e => (m, some e)
    | none => apply_redeem_allocations m (targets.zip amounts)

/-- Pre-validation loop of `action_withdraw_allocations`: per pair, amount
non-negative and at most the target's `balance`. -/
def validate_withdraw_pairs (m : MetaVault) : List (Nat × ℚ) → Option Err
  | [] => none
  | (t, amount) :: rest =>
    if amount < 0 then some .negativeAmount
    else
      match m.vaults[t]? with
      | none => some .notAVault
      | some v =>
        if amount > v.balance then some .amountExceedsTarget
        else validate_withdraw_pairs m rest

/-- Apply loop of `action_withdraw_allocations`: withdraw from each target,
add the requested amount to `_assets`, drop the target from
`_allocated_vaults` when its share balance reaches 0. -/
def apply_withdraw_allocations : MetaVault → List (Nat × ℚ) → MetaVault × Option Err
  | m, [] => (m, none)
  | m, (t, amount) :: rest =>
    match m.vaults[t]? with
    | none => (m, some .notAVault)
    | some v =>
      match v.action_withdraw amount with
      | .error e => (m, some e)
      | .ok (_, v') =>
        apply_withdraw_allocations
          { m with
            vaults := m.vaults.set t v',
            assets := m.assets + amount,
            allocated_vaults :=
              if v'.istate.shares = 0 then m.allocated_vaults.filter (fun x => x ≠ t)
              else m.allocated_vaults }
          rest

/-- `action_withdraw_allocations(targets, amounts)`. -/
def action_withdraw_allocations (m : MetaVault) (targets : List Nat) (amounts : List ℚ) :
    MetaVault × Option Err :=
  if targets = [] ∨ amounts = [] then (m, some .emptyBatch)
  else if targets.length ≠ amounts.length then (m, some .lengthMismatch)
  else if ¬ ∀ t ∈ targets, t < m.vaults.length then (m, some .notAVault)
  else
    match validate_withdraw_pairs m (targets.zip amounts) with
    | some e => (m, some e)
    | none => apply_withdraw_allocations m (targets.zip amounts)

end MetaVault

/-! ## curator/utils/validate_actions.py

Vault names are `String`s and the `balances` dict is an association list;
`balances[name]` on a missing key raises `KeyError`, modelled by `Except`.
Feedback messages are kept as constant strings (the source interpolates the
offending values into them). -/

inductive ValidationResult where
  | pass
  | fail
  deriving DecidableEq, Repr

/-- `ValidationFeedback`. -/
structure ValidationFeedback where
  feedback : String
  result : ValidationResult
  deriving DecidableEq, Repr

/-- `validate_allocation(total_assets, vault_names, allocations)`. -/
def validate_allocation (total_assets : ℚ) (vault_names : List String)
    (allocations : List ℚ) : ValidationFeedback :=
  if vault_names.length ≠ allocations.length then
    ⟨"The lengths of vaults names and allocations should match.", .fail⟩
  else if ∃ amount ∈ allocations, amount < 0 then
    ⟨"The allocation amount cannot be negative.", .fail⟩
  else if total_assets < allocations.sum then
    ⟨"Sum of allocations cannot exceed the total asset amount to allocate", .fail⟩
  else ⟨"", .pass⟩

/-- The per-pair loop of `validate_withdraw`: every reached pair evaluates
`balances[vault_name]` (in the first condition when `withdrawal > 0`, in the
`elif` otherwise), so a missing key raises `KeyError` either way. -/
def check_withdraw_pairs (balances : List (String × ℚ)) :
    List (String × ℚ) → Except Err ValidationFeedback
  | [] => .ok ⟨"", .pass⟩
  | (vault_name, withdrawal) :: rest =>
    match balances.lookup vault_name with
    | none => .error .keyError
    | some b =>
      if withdrawal > 0 ∧ b = 0 then
        .ok ⟨"Cannot withdraw because it dose not have allocation.", .fail⟩
      else if withdrawal > b then
        .ok ⟨"The withdrawal amount cannot exceed the balance.", .fail⟩
      else check_withdraw_pairs balances rest

/-- `validate_withdraw(total_assets, vault_names, withdrawals, balances)`. -/
def validate_withdraw (total_assets : ℚ) (vault_names : List String)
    (withdrawals : List ℚ) (balances : List (String × ℚ)) :
    Except Err ValidationFeedback :=
  if vault_names.length ≠ withdrawals.length then
    .ok ⟨"The length of vaults names is not the same as the length of withdrawal amounts.", .fail⟩
  else if ∃ amount ∈ withdrawals, amount < 0 then
    .ok ⟨"The withdrawal amount cannot be negative.", .fail⟩
  else if total_assets > withdrawals.sum then
    .ok ⟨"Sum of withdraw amounts cannot be smaller than the total asset amount to withdraw", .fail⟩
  else check_withdraw_pairs balances (vault_names.zip withdrawals)

/-- The per-pair loop of `validate_redeem` (same lookup pattern as the
withdraw loop). -/
def check_redeem_pairs (balances : List (String × ℚ)) :
    List (String × ℚ) → Except Err ValidationFeedback
  | [] => .ok ⟨"", .pass⟩
  | (vault_name, share) :: rest =>
    match balances.lookup vault_name with
    | none => .error .keyError
    | some b =>
      if share > 0 ∧ b = 0 then
        .ok ⟨"Cannot redeem because it dose not have allocation.", .fail⟩
      else if share > b then
        .ok ⟨"The redeem share amount cannot exceed the balance.", .fail⟩
      else check_redeem_pairs balances rest

/-- `validate_redeem(vault_names, redeem_shares, balances)`: all checks are
inside `if len(vault_names) != 0`, so an empty name list passes outright. -/
def validate_redeem (vault_names : List String) (redeem_shares : List ℚ)
    (balances : List (String × ℚ)) : Except Err ValidationFeedback :=
  if vault_names.length ≠ 0 then
    if vault_names.length ≠ redeem_shares.length then
      .ok ⟨"The length of vaults names is not the same as the length of share amounts.", .fail⟩
    else if ∃ amount ∈ redeem_shares, amount < 0 then
      .ok ⟨"The share amount cannot be negative.", .fail⟩
    else check_redeem_pairs balances (vault_names.zip redeem_shares)
  else .ok ⟨"", .pass⟩

/-- `validate_reallocation(vault_names, weights)`: all checks are inside
`if len(vault_names) != 0`, so an empty name list passes outright. -/
def validate_reallocation (vault_names : List String) (weights : List ℚ) :
    ValidationFeedback :=
  if vault_names.length ≠ 0 then
    if vault_names.length ≠ weights.length then
      ⟨"The length of vaults names is not the same as the length of weights.", .fail⟩
    else if ∃ weight ∈ weights, weight < 0 ∨ weight > 1 then
      ⟨"The weight should be between 0 and 1.", .fail⟩
    else if weights.sum ≠ 1 then
      ⟨"Sum of weights should equal to 1.", .fail⟩
    else ⟨"", .pass⟩
  else ⟨"", .pass⟩

/-! ## Concrete states used by the example scenarios and counterexamples -/

/-- The spec's example sub-vault: `share_price = 2.0`,
`entry_cost_rate = exit_cost_rate = 0.0035`, no idle/pending figures. -/
def exampleVault : LogarithmVault :=
  { entry_cost_rate := 35 / 10000, exit_cost_rate := 35 / 10000,
    gstate := { share_price := 2, idle_assets := 0, pending_withdrawals := 0 },
    istate := {} }

/-- A fee-free sub-vault holding 5 shares at price 1 (used for the
duplicated-target redemption batch). -/
def dupTargetVault : LogarithmVault :=
  { entry_cost_rate := 0, exit_cost_rate := 0,
    gstate := { share_price := 1, idle_assets := 0, pending_withdrawals := 0 },
    istate := { shares := 5, open_assets := 5 } }

/-- Aggregator holding one registered sub-vault with 5 shares. -/
def dupRedeemMeta : MetaVault := { vaults := [dupTargetVault] }

/-- A fee-free sub-vault whose share count `1.0000019` at price `0.7` makes
`preview_withdraw` round the shares to burn above the shares held even for a
request strictly below `balance`. -/
def roundingTrapVault : LogarithmVault :=
  { entry_cost_rate := 0, exit_cost_rate := 0,
    gstate := { share_price := 7 / 10, idle_assets := 0, pending_withdrawals := 0 },
    istate := { shares := 10000019 / 10000000, open_assets := 0 } }

/-- Aggregator with two distinct registered sub-vaults, the second being the
rounding trap. -/
def distinctWithdrawMeta : MetaVault :=
  { vaults :=
      [{ entry_cost_rate := 0, exit_cost_rate := 0,
         gstate := { share_price := 1, idle_assets := 0, pending_withdrawals := 0 },
         istate := { shares := 1, open_assets := 1 } },
       roundingTrapVault] }

/-- A fee-free fresh sub-vault (no shares held). -/
def freshVault : LogarithmVault :=
  { entry_cost_rate := 0, exit_cost_rate := 0,
    gstate := { share_price := 1, idle_assets := 0, pending_withdrawals := 0 },
    istate := {} }

/-- Aggregator with 5 idle assets and two fresh registered sub-vaults. -/
def allocMeta : MetaVault := { assets := 5, vaults := [freshVault, freshVault] }

/-- A sub-vault whose pending withdrawals absorb a dust deposit: depositing
`1e-7` mints 0 shares. -/
def dustVault : LogarithmVault :=
  { entry_cost_rate := 35 / 10000, exit_cost_rate := 35 / 10000,
    gstate := { share_price := 1, idle_assets := 0, pending_withdrawals := 1 },
    istate := {} }

/-- Sub-vault used to witness the full-exit theorem: 10 shares at price 2
with 3 idle assets. -/
def fullExitVault : LogarithmVault :=
  { entry_cost_rate := 35 / 10000, exit_cost_rate := 35 / 10000,
    gstate := { share_price := 2, idle_assets := 3, pending_withdrawals := 0 },
    istate := { shares := 10, open_assets := 7 } }

/-! ## Rounding lemmas -/

theorem floor_to_6dp_le (x : ℚ) : floor_to_6dp x ≤ x := by
  unfold floor_to_6dp
  rw [div_le_iff₀ (by norm_num : (0:ℚ) < 1000000)]
  exact Int.floor_le (x * 1000000)

theorem le_ceil_to_6dp (x : ℚ) : x ≤ ceil_to_6dp x := by
  unfold ceil_to_6dp
  rw [le_div_iff₀ (by norm_num : (0:ℚ) < 1000000)]
  exact Int.le_ceil (x * 1000000)

theorem ceil_to_6dp_nonneg {x : ℚ} (hx : 0 ≤ x) : 0 ≤ ceil_to_6dp x :=
  le_trans hx (le_ceil_to_6dp x)

theorem floor_to_6dp_nonneg {x : ℚ} (hx : 0 ≤ x) : 0 ≤ floor_to_6dp x := by
  unfold floor_to_6dp
  have h : (0:ℤ) ≤ ⌊x * 1000000⌋ := Int.floor_nonneg.mpr (by positivity)
  have h' : (0:ℚ) ≤ (⌊x * 1000000⌋ : ℚ) := by exact_mod_cast h
  positivity

/-- Expressing `ceil_to_6dp` through `Int.floor`, for concrete evaluation. -/
theorem ceil_to_6dp_as_floor (x : ℚ) :
    ceil_to_6dp x = -((⌊-(x * 1000000)⌋ : ℚ) / 1000000) := by
  unfold ceil_to_6dp
  rw [Int.floor_neg]
  push_cast
  ring

/-- A `ceil_to_6dp` below a `floor_to_6dp` value: ceiling to a 6-dp multiple
cannot overshoot a 6-dp multiple bound. -/
theorem ceil_to_6dp_le_floor_to_6dp {x y : ℚ} (h : x ≤ floor_to_6dp y) :
    ceil_to_6dp x ≤ floor_to_6dp y := by
  unfold ceil_to_6dp floor_to_6dp at *
  have h1 : x * 1000000 ≤ (⌊y * 1000000⌋ : ℚ) := by
    rw [← le_div_iff₀ (by norm_num : (0:ℚ) < 1000000)]
    exact h
  have h2 : ⌈x * 1000000⌉ ≤ ⌊y * 1000000⌋ := Int.ceil_le.mpr h1
  have h3 : (⌈x * 1000000⌉ : ℚ) ≤ (⌊y * 1000000⌋ : ℚ) := by exact_mod_cast h2
  gcongr

/-! ## C4: the deposit example scenario -/

/-- Claim C4, counterexample: on the example vault (`share_price = 2`,
`entry_cost_rate = 0.0035`, `pending_withdrawals = 0`) the fee formula gives
`action_deposit(100000) = 49825.610363` shares, which is not approximately
`49912.5` (it is below `49900`), so the claimed value is wrong. -/
theorem deposit_example_not_49912 :
    exampleVault.action_deposit 100000 =
      .ok (49825610363 / 1000000,
        { exampleVault with istate := { shares := 49825610363 / 1000000, open_assets := 100000 } }) ∧
    (49825610363 / 1000000 : ℚ) < 49900 := by
  constructor
  · norm_num [exampleVault, LogarithmVault.action_deposit, LogarithmVault.preview_deposit,
      LogarithmVault.cost_on_total, LogarithmVault.update_internal_state,
      ceil_to_6dp_as_floor, floor_to_6dp]
  · norm_num

/-- Claim C4 (corrected): on the example vault the fee is
`ceil_to_6dp(100000 * 0.0035 / 1.0035) = 348.779273` (not `≈ 349.65`) and the
minted shares are `floor_to_6dp((100000 - fee) / 2) = 49825.610363`
(not `≈ 49912.5`), exactly as the fee formula produces. -/
theorem deposit_example_exact :
    LogarithmVault.cost_on_total 100000 (35 / 10000) = 348779273 / 1000000 ∧
    exampleVault.preview_deposit 100000 =
      floor_to_6dp ((100000 - 348779273 / 1000000) / 2) ∧
    exampleVault.preview_deposit 100000 = 49825610363 / 1000000 := by
  refine ⟨?_, ?_, ?_⟩ <;>
    norm_num [exampleVault, LogarithmVault.preview_deposit, LogarithmVault.cost_on_total,
      ceil_to_6dp_as_floor, floor_to_6dp]

/-! ## C5: update_state validation and mutual exclusivity -/

/-- Claim C5 (confirmed): `update_state` rejects the pushed state exactly when
`share_price ≤ 0`, an idle/pending figure is negative, or both are positive;
after any successful call the stored global state satisfies the mutual
exclusivity invariant. -/
theorem update_state_mutual_exclusivity (v : LogarithmVault) (g : LogarithmVaultGlobalState) :
    ((∃ e, v.update_state g = .error e) ↔
      (g.share_price ≤ 0 ∨ g.idle_assets < 0 ∨ g.pending_withdrawals < 0 ∨
        (g.idle_assets > 0 ∧ g.pending_withdrawals > 0))) ∧
    (∀ v', v.update_state g = .ok v' →
      v'.gstate = g ∧
      (v'.gstate.idle_assets > 0 → v'.gstate.pending_withdrawals = 0) ∧
      (v'.gstate.pending_withdrawals > 0 → v'.gstate.idle_assets = 0)) := by
  unfold LogarithmVault.update_state
  split_ifs with h1 h2 h3
  · refine ⟨⟨fun _ => Or.inl h1, fun _ => ⟨_, rfl⟩⟩, fun v' hv => by simp at hv⟩
  · refine ⟨⟨fun _ => Or.inr (h2.elim Or.inl (fun h => Or.inr (Or.inl h))), fun _ => ⟨_, rfl⟩⟩,
      fun v' hv => by simp at hv⟩
  · refine ⟨⟨fun _ => Or.inr (Or.inr (Or.inr h3)), fun _ => ⟨_, rfl⟩⟩,
      fun v' hv => by simp at hv⟩
  · push_neg at h2
    constructor
    · constructor
      · rintro ⟨e, he⟩
        simp at he
      · intro h
        rcases h with h | h | h | h
        · exact absurd h h1
        · exact absurd h (not_lt.mpr h2.1)
        · exact absurd h (not_lt.mpr h2.2)
        · exact absurd h h3
    · intro v' hv
      simp only [Except.ok.injEq] at hv
      subst hv
      refine ⟨rfl, fun hidle => ?_, fun hpend => ?_⟩
      · by_contra hne
        exact h3 ⟨hidle, lt_of_le_of_ne h2.2 (Ne.symm hne)⟩
      · by_contra hne
        exact h3 ⟨lt_of_le_of_ne h2.1 (Ne.symm hne), hpend⟩

/-- Witness for C5 at a concrete valid state push. -/
theorem update_state_mutual_exclusivity_witness :
    ({ ({} : LogarithmVault) with
        gstate := { share_price := 1, idle_assets := 2, pending_withdrawals := 0 } }).gstate
      = { share_price := 1, idle_assets := 2, pending_withdrawals := 0 } ∧
    (({ ({} : LogarithmVault) with
        gstate := { share_price := 1, idle_assets := 2, pending_withdrawals := 0 } }
          : LogarithmVault).gstate.idle_assets > 0 →
      ({ ({} : LogarithmVault) with
        gstate := { share_price := 1, idle_assets := 2, pending_withdrawals := 0 } }
          : LogarithmVault).gstate.pending_withdrawals = 0) ∧
    (({ ({} : LogarithmVault) with
        gstate := { share_price := 1, idle_assets := 2, pending_withdrawals := 0 } }
          : LogarithmVault).gstate.pending_withdrawals > 0 →
      ({ ({} : LogarithmVault) with
        gstate := { share_price := 1, idle_assets := 2, pending_withdrawals := 0 } }
          : LogarithmVault).gstate.idle_assets = 0) :=
  (update_state_mutual_exclusivity {} _).2 _ (by norm_num [LogarithmVault.update_state])

/-! ## C10: shares vanish implies open_assets vanish -/

theorem update_internal_state_shares_zero (i : LogarithmVaultInternalState) (ds da : ℚ)
    (h : (LogarithmVault.update_internal_state i ds da).shares = 0) :
    (LogarithmVault.update_internal_state i ds da).open_assets = 0 := by
  unfold LogarithmVault.update_internal_state at h ⊢
  dsimp only at h ⊢
  split_ifs at h ⊢ with hz
  · rfl
  · exact absurd h hz

/-- Claim C10 (confirmed): after every successful `action_deposit`,
`action_redeem` or `action_withdraw`, `shares = 0` implies `open_assets = 0`;
in particular the dust deposit `1e-7 > 0` into the empty `dustVault` mints 0
shares and leaves `open_assets` reset to 0, so the contributed assets vanish
from cost-basis tracking. -/
theorem shares_zero_resets_open_assets :
    (∀ (v : LogarithmVault) (x s : ℚ) (v' : LogarithmVault),
       v.action_deposit x = .ok (s, v') →
       v'.istate.shares = 0 → v'.istate.open_assets = 0) ∧
    (∀ (v : LogarithmVault) (x s : ℚ) (v' : LogarithmVault),
       v.action_redeem x = .ok (s, v') →
       v'.istate.shares = 0 → v'.istate.open_assets = 0) ∧
    (∀ (v : LogarithmVault) (x s : ℚ) (v' : LogarithmVault),
       v.action_withdraw x = .ok (s, v') →
       v'.istate.shares = 0 → v'.istate.open_assets = 0) ∧
    (dustVault.action_deposit (1/10000000) =
       .ok (0, { dustVault with istate := { shares := 0, open_assets := 0 } }) ∧
     (0 : ℚ) < 1/10000000) := by
  refine ⟨?_, ?_, ?_, ?_, by norm_num⟩
  · intro v x s v' hok
    unfold LogarithmVault.action_deposit at hok
    split at hok
    · simp at hok
    · simp only [Except.ok.injEq, Prod.mk.injEq] at hok
      obtain ⟨-, hv'⟩ := hok
      subst hv'
      exact update_internal_state_shares_zero _ _ _
  · intro v x s v' hok
    unfold LogarithmVault.action_redeem at hok
    split at hok
    · simp at hok
    split at hok
    · simp at hok
    simp only [Except.ok.injEq, Prod.mk.injEq] at hok
    obtain ⟨-, hv'⟩ := hok
    subst hv'
    exact update_internal_state_shares_zero _ _ _
  · intro v x s v' hok
    unfold LogarithmVault.action_withdraw at hok
    dsimp only at hok
    split at hok
    · simp at hok
    split at hok
    · simp only [Except.ok.injEq, Prod.mk.injEq] at hok
      obtain ⟨-, hv'⟩ := hok
      subst hv'
      exact update_internal_state_shares_zero _ _ _
    split at hok
    · simp at hok
    split at hok
    · simp at hok
    simp only [Except.ok.injEq, Prod.mk.injEq] at hok
    obtain ⟨-, hv'⟩ := hok
    subst hv'
    exact update_internal_state_shares_zero _ _ _
  · norm_num [dustVault, LogarithmVault.action_deposit, LogarithmVault.preview_deposit,
      LogarithmVault.cost_on_total, LogarithmVault.update_internal_state,
      ceil_to_6dp_as_floor, floor_to_6dp]

/-- Witness for C10: the dust-deposit result satisfies the invariant. -/
theorem shares_zero_resets_open_assets_witness :
    ({ dustVault with istate := { shares := 0, open_assets := 0 } } : LogarithmVault).istate.open_assets
      = 0 :=
  shares_zero_resets_open_assets.1 dustVault (1/10000000) 0 _
    shares_zero_resets_open_assets.2.2.2.1 rfl

/-! ## C7: full exit -/

/-- With a non-negative share balance and a valid global state the
fully-redeemed exit value is non-negative. -/
theorem balance_nonneg (v : LogarithmVault) (hp : 0 ≤ v.gstate.share_price)
    (hidle : 0 ≤ v.gstate.idle_assets) (hxr : 0 ≤ v.exit_cost_rate)
    (hsh : 0 ≤ v.istate.shares) : 0 ≤ v.balance := by
  unfold LogarithmVault.balance LogarithmVault.preview_redeem LogarithmVault.cost_on_total
  dsimp only
  set g := floor_to_6dp (v.istate.shares * v.gstate.share_price) with hg
  set d := if g > v.gstate.idle_assets then g - v.gstate.idle_assets else 0 with hd
  have hg0 : 0 ≤ g := floor_to_6dp_nonneg (mul_nonneg hsh hp)
  have hd0 : 0 ≤ d := by rw [hd]; split_ifs with h <;> linarith
  have hdg : d ≤ g := by rw [hd]; split_ifs with h <;> linarith
  have hone : (0:ℚ) < 1 + v.exit_cost_rate := by linarith
  have hfrac : d * v.exit_cost_rate / (1 + v.exit_cost_rate) ≤ d := by
    rw [div_le_iff₀ hone]
    nlinarith
  have hxc : ceil_to_6dp (d * v.exit_cost_rate / (1 + v.exit_cost_rate)) ≤ g := by
    rw [hg]
    exact ceil_to_6dp_le_floor_to_6dp (by rw [← hg]; linarith)
  exact floor_to_6dp_nonneg (by linarith)

/-- Claim C7 (confirmed): for any sub-vault state with a valid global state
and non-negative shares held, `action_withdraw(balance)` succeeds, burns all
shares held and leaves `shares = 0` and `open_assets = 0` exactly. -/
theorem full_exit_idempotence (v : LogarithmVault)
    (hp : 0 < v.gstate.share_price) (hidle : 0 ≤ v.gstate.idle_assets)
    (hpend : 0 ≤ v.gstate.pending_withdrawals)
    (hexcl : ¬(0 < v.gstate.idle_assets ∧ 0 < v.gstate.pending_withdrawals))
    (hxr : 0 ≤ v.exit_cost_rate) (hsh : 0 ≤ v.istate.shares) :
    v.action_withdraw v.balance =
      .ok (v.istate.shares, { v with istate := { shares := 0, open_assets := 0 } }) := by
  have hb : 0 ≤ v.balance := balance_nonneg v hp.le hidle hxr hsh
  unfold LogarithmVault.action_withdraw
  dsimp only
  rw [if_neg (not_lt.mpr hb), if_pos rfl]
  have hist : LogarithmVault.update_internal_state v.istate (-v.istate.shares) (-v.balance) =
      { shares := 0, open_assets := 0 } := by
    unfold LogarithmVault.update_internal_state
    dsimp only
    rw [if_pos (by ring : v.istate.shares + -v.istate.shares = 0)]
    simp
  rw [hist]

/-- Witness for C7 at a concrete vault (10 shares at price 2, 3 idle). -/
theorem full_exit_idempotence_witness :
    fullExitVault.action_withdraw fullExitVault.balance =
      .ok (10, { fullExitVault with istate := { shares := 0, open_assets := 0 } }) :=
  full_exit_idempotence fullExitVault (by norm_num [fullExitVault])
    (by norm_num [fullExitVault]) (by norm_num [fullExitVault])
    (by norm_num [fullExitVault]) (by norm_num [fullExitVault])
    (by norm_num [fullExitVault])

/-! ## C1: conservation under fees -/

/-- Claim C1 (confirmed): on a valid sub-vault state, depositing `A ≥ 0`
assets and immediately redeeming the minted shares against the unchanged
global state returns at most `A`. -/
theorem conservation_under_fees (v : LogarithmVault) (A s a : ℚ)
    (v₁ v₂ : LogarithmVault)
    (her : 0 ≤ v.entry_cost_rate) (her' : v.entry_cost_rate ≤ 1/100)
    (hxr : 0 ≤ v.exit_cost_rate) (hxr' : v.exit_cost_rate ≤ 1/100)
    (hp : 0 < v.gstate.share_price)
    (hidle : 0 ≤ v.gstate.idle_assets)
    (hpend : 0 ≤ v.gstate.pending_withdrawals)
    (hexcl : ¬(0 < v.gstate.idle_assets ∧ 0 < v.gstate.pending_withdrawals))
    (hA : 0 ≤ A)
    (hdep : v.action_deposit A = .ok (s, v₁))
    (hred : v₁.action_redeem s = .ok (a, v₂)) :
    a ≤ A := by
  -- extract the minted shares and the post-deposit vault
  unfold LogarithmVault.action_deposit at hdep
  rw [if_neg (not_lt.mpr hA)] at hdep
  simp only [Except.ok.injEq, Prod.mk.injEq] at hdep
  obtain ⟨hs, hv₁⟩ := hdep
  -- extract the redeemed assets
  unfold LogarithmVault.action_redeem at hred
  split at hred
  · simp at hred
  split at hred
  · simp at hred
  simp only [Except.ok.injEq, Prod.mk.injEq] at hred
  obtain ⟨ha, -⟩ := hred
  -- the deposit leaves the global state and the rates unchanged
  have hgs : v₁.gstate = v.gstate := by rw [← hv₁]
  have hxrs : v₁.exit_cost_rate = v.exit_cost_rate := by rw [← hv₁]
  subst ha hs
  unfold LogarithmVault.preview_redeem LogarithmVault.preview_deposit
    LogarithmVault.cost_on_total
  dsimp only
  rw [hgs, hxrs]
  set u := if A > v.gstate.pending_withdrawals then A - v.gstate.pending_withdrawals else 0
    with hu
  have hu0 : 0 ≤ u := by rw [hu]; split_ifs with h <;> linarith
  have h1er : (0:ℚ) < 1 + v.entry_cost_rate := by linarith
  have hec0 : 0 ≤ ceil_to_6dp (u * v.entry_cost_rate / (1 + v.entry_cost_rate)) :=
    ceil_to_6dp_nonneg (div_nonneg (mul_nonneg hu0 her) h1er.le)
  set ec := ceil_to_6dp (u * v.entry_cost_rate / (1 + v.entry_cost_rate)) with hecdef
  set s := floor_to_6dp ((A - ec) / v.gstate.share_price) with hsdef
  have hsp : s * v.gstate.share_price ≤ A - ec := by
    have h1 : s ≤ (A - ec) / v.gstate.share_price := by rw [hsdef]; exact floor_to_6dp_le _
    calc s * v.gstate.share_price
        ≤ ((A - ec) / v.gstate.share_price) * v.gstate.share_price :=
          mul_le_mul_of_nonneg_right h1 hp.le
      _ = A - ec := div_mul_cancel₀ _ hp.ne'
  set g := floor_to_6dp (s * v.gstate.share_price) with hgdef
  have hgA : g ≤ A := by
    have := floor_to_6dp_le (s * v.gstate.share_price)
    rw [← hgdef] at this
    linarith
  set d := if g > v.gstate.idle_assets then g - v.gstate.idle_assets else 0 with hd
  have hd0 : 0 ≤ d := by rw [hd]; split_ifs with h <;> linarith
  have h1xr : (0:ℚ) < 1 + v.exit_cost_rate := by linarith
  have hxc0 : 0 ≤ ceil_to_6dp (d * v.exit_cost_rate / (1 + v.exit_cost_rate)) :=
    ceil_to_6dp_nonneg (div_nonneg (mul_nonneg hd0 hxr) h1xr.le)
  have hfl := floor_to_6dp_le (g - ceil_to_6dp (d * v.exit_cost_rate / (1 + v.exit_cost_rate)))
  linarith

/-- Witness for C1: a 100-asset round trip on the example vault returns
`99.303657 ≤ 100`. -/
theorem conservation_under_fees_witness : (99303657/1000000 : ℚ) ≤ (100 : ℚ) :=
  conservation_under_fees exampleVault 100 (4982561/100000) (99303657/1000000)
    { exampleVault with istate := { shares := 4982561/100000, open_assets := 100 } }
    { exampleVault with istate := { shares := 0, open_assets := 0 } }
    (by norm_num [exampleVault]) (by norm_num [exampleVault])
    (by norm_num [exampleVault]) (by norm_num [exampleVault])
    (by norm_num [exampleVault]) (by norm_num [exampleVault])
    (by norm_num [exampleVault]) (by norm_num [exampleVault])
    (by norm_num)
    (by norm_num [exampleVault, LogarithmVault.action_deposit, LogarithmVault.preview_deposit,
      LogarithmVault.cost_on_total, LogarithmVault.update_internal_state,
      ceil_to_6dp_as_floor, floor_to_6dp])
    (by norm_num [exampleVault, LogarithmVault.action_redeem, LogarithmVault.preview_redeem,
      LogarithmVault.cost_on_total, LogarithmVault.update_internal_state,
      ceil_to_6dp_as_floor, floor_to_6dp])

/-! ## C3: aggregator action_withdraw -/

/-- Aggregator used to witness the withdraw specification. -/
def metaW : MetaVault := { assets := 10, total_supply := 10 }

/-- Expected state of `metaW` after withdrawing 4 assets. -/
def metaW' : MetaVault := { assets := 6, total_supply := 6 }

/-- Claim C3, counterexample: on the empty aggregator, `total_assets = 0` and
the request `assets = 0` satisfies `0 ≤ assets ≤ total_assets`, yet
`action_withdraw` fails (Python `ZeroDivisionError` in
`assets * total_supply / total_assets`) instead of succeeding. -/
theorem meta_withdraw_zero_total_fails :
    ({} : MetaVault).action_withdraw 0 = .error .zeroDivision ∧
    ({} : MetaVault).total_assets = 0 := by
  constructor
  · norm_num [MetaVault.action_withdraw, MetaVault.total_assets, MetaVault.idle_assets,
      MetaVault.pending_withdrawals, MetaVault.allocated_assets]
  · norm_num [MetaVault.total_assets, MetaVault.idle_assets,
      MetaVault.pending_withdrawals, MetaVault.allocated_assets]

/-- Claim C3 (corrected): `action_withdraw` fails exactly when `assets < 0`,
`assets > total_assets`, or `total_assets = 0` (the division raises
`ZeroDivisionError` in that remaining case, which has `assets = 0`); on
success it burns `assets * total_supply / total_assets` shares, draws first
from idle assets and adds any shortfall beyond idle to
`cumulative_requested_withdrawals` instead of failing. -/
theorem meta_withdraw_spec (m : MetaVault) (a : ℚ) :
    ((∃ e, m.action_withdraw a = .error e) ↔
      (a < 0 ∨ a > m.total_assets ∨ m.total_assets = 0)) ∧
    (∀ s m', m.action_withdraw a = .ok (s, m') →
      s = a * m.total_supply / m.total_assets ∧
      m'.assets = m.assets - min a m.idle_assets ∧
      m'.cumulative_requested_withdrawals =
        m.cumulative_requested_withdrawals + max (a - m.idle_assets) 0 ∧
      m'.total_supply = m.total_supply - s ∧
      m'.vaults = m.vaults ∧ m'.allocated_vaults = m.allocated_vaults) := by
  unfold MetaVault.action_withdraw
  split_ifs with h1 h2 h3 h4
  · exact ⟨⟨fun _ => Or.inl h1, fun _ => ⟨_, rfl⟩⟩, fun s m' h => by simp at h⟩
  · exact ⟨⟨fun _ => Or.inr (Or.inl h2), fun _ => ⟨_, rfl⟩⟩, fun s m' h => by simp at h⟩
  · exact ⟨⟨fun _ => Or.inr (Or.inr h3), fun _ => ⟨_, rfl⟩⟩, fun s m' h => by simp at h⟩
  · constructor
    · constructor
      · rintro ⟨e, he⟩
        simp at he
      · intro hdisj
        rcases hdisj with h | h | h
        exacts [absurd h h1, absurd h h2, absurd h h3]
    · intro s m' h
      simp only [Except.ok.injEq, Prod.mk.injEq] at h
      obtain ⟨hs, hm'⟩ := h
      subst hs
      subst hm'
      refine ⟨rfl, ?_, ?_, rfl, rfl, rfl⟩
      · rw [min_eq_left h4]
      · rw [max_eq_right (by linarith : a - m.idle_assets ≤ 0)]
        ring
  · constructor
    · constructor
      · rintro ⟨e, he⟩
        simp at he
      · intro hdisj
        rcases hdisj with h | h | h
        exacts [absurd h h1, absurd h h2, absurd h h3]
    · intro s m' h
      simp only [Except.ok.injEq, Prod.mk.injEq] at h
      obtain ⟨hs, hm'⟩ := h
      subst hs
      subst hm'
      have hlt : m.idle_assets ≤ a := le_of_lt (not_le.mp h4)
      refine ⟨rfl, ?_, ?_, rfl, rfl, rfl⟩
      · rw [min_eq_right hlt]
      · rw [max_eq_left (by linarith : (0:ℚ) ≤ a - m.idle_assets)]

/-- Witness for C3 at a concrete successful withdrawal (4 out of 10 idle). -/
theorem meta_withdraw_spec_witness :
    (4:ℚ) = 4 * metaW.total_supply / metaW.total_assets ∧
    metaW'.assets = metaW.assets - min 4 metaW.idle_assets ∧
    metaW'.cumulative_requested_withdrawals =
      metaW.cumulative_requested_withdrawals + max (4 - metaW.idle_assets) 0 ∧
    metaW'.total_supply = metaW.total_supply - 4 ∧
    metaW'.vaults = metaW.vaults ∧ metaW'.allocated_vaults = metaW.allocated_vaults :=
  (meta_withdraw_spec metaW 4).2 4 metaW'
    (by norm_num [metaW, metaW', MetaVault.action_withdraw, MetaVault.total_assets,
      MetaVault.idle_assets, MetaVault.pending_withdrawals, MetaVault.allocated_assets])

/-! ## C6: allocation batches -/

theorem dust_filter_nonneg (l : List ℚ) : ∀ x ∈ MetaVault.dust_filter l, 0 ≤ x := by
  intro x hx
  simp only [MetaVault.dust_filter, List.mem_map] at hx
  obtain ⟨a, -, rfl⟩ := hx
  split_ifs with h
  · have hD : (0:ℚ) < DUST := by norm_num [DUST]
    linarith
  · exact le_refl 0

theorem dust_filter_length (l : List ℚ) :
    (MetaVault.dust_filter l).length = l.length := List.length_map _ _

theorem shortfall_adjust_length (l : List ℚ) (idle : ℚ) :
    (MetaVault.shortfall_adjust l idle).length = l.length := by
  cases l <;> simp [MetaVault.shortfall_adjust]

theorem apply_allocations_assets (pairs : List (Nat × ℚ)) :
    ∀ (m m' : MetaVault), MetaVault.apply_allocations m pairs = (m', none) →
      m'.assets = m.assets - (pairs.map Prod.snd).sum ∧
      m'.cumulative_requested_withdrawals = m.cumulative_requested_withdrawals := by
  induction pairs with
  | nil =>
    intro m m' h
    simp only [MetaVault.apply_allocations, Prod.mk.injEq] at h
    obtain ⟨rfl, -⟩ := h
    simp
  | cons hd tl ih =>
    obtain ⟨t, amt⟩ := hd
    intro m m' h
    rw [MetaVault.apply_allocations] at h
    cases hget : m.vaults[t]? with
    | none =>
      simp only [hget] at h
      simp at h
    | some v =>
      cases hdep : v.action_deposit amt with
      | error e =>
        simp only [hget, hdep] at h
        simp at h
      | ok pr =>
        obtain ⟨sh, v'⟩ := pr
        simp only [hget, hdep] at h
        obtain ⟨ha, hc⟩ := ih _ _ h
        constructor
        · rw [ha]
          simp only [List.map_cons, List.sum_cons]
          ring
        · exact hc

/-- Claim C6 (confirmed): under the validation preconditions, a positive
shortfall is deducted from the first amount and dust amounts are zeroed
(computed by `shortfall_adjust` / `dust_filter`); the call fails with the
insufficient-idle error when the adjusted sum still exceeds idle assets, and
on success the aggregator's idle assets decrease by exactly the adjusted sum,
never more. -/
theorem allocate_idle_decrease (m : MetaVault) (targets : List Nat) (amounts : List ℚ)
    (hne : targets ≠ []) (hane : amounts ≠ [])
    (hlen : targets.length = amounts.length)
    (hvalid : ∀ t ∈ targets, t < m.vaults.length)
    (hnn : ∀ x ∈ amounts, 0 ≤ x) :
    ((MetaVault.dust_filter (MetaVault.shortfall_adjust amounts m.idle_assets)).sum
        > m.idle_assets →
      m.action_allocate_assets targets amounts = (m, some .insufficientIdle)) ∧
    (∀ m', m.action_allocate_assets targets amounts = (m', none) →
      m'.idle_assets = m.idle_assets -
        (MetaVault.dust_filter (MetaVault.shortfall_adjust amounts m.idle_assets)).sum ∧
      m'.cumulative_requested_withdrawals = m.cumulative_requested_withdrawals) := by
  unfold MetaVault.action_allocate_assets
  rw [if_neg (by push_neg; exact ⟨hne, hane⟩ : ¬(targets = [] ∨ amounts = []))]
  rw [if_neg (not_not_intro hlen)]
  rw [if_neg (not_not_intro hvalid)]
  rw [if_neg (not_not_intro (fun a ha => not_lt.mpr (hnn a ha)))]
  dsimp only
  set adj := MetaVault.dust_filter (MetaVault.shortfall_adjust amounts m.idle_assets)
    with hadj
  constructor
  · intro hgt
    rw [if_pos hgt]
  · intro m' h
    by_cases hgt : adj.sum > m.idle_assets
    · rw [if_pos hgt] at h
      simp at h
    · rw [if_neg hgt] at h
      have hlen2 : adj.length ≤ targets.length := by
        rw [hadj, dust_filter_length, shortfall_adjust_length, hlen]
      have hmap : ((targets.zip adj).map Prod.snd) = adj := List.map_snd_zip _ _ hlen2
      obtain ⟨hassets, hcum⟩ := apply_allocations_assets _ _ _ h
      rw [hmap] at hassets
      refine ⟨?_, hcum⟩
      have hS0 : 0 ≤ adj.sum := by
        rw [hadj]
        exact List.sum_nonneg (dust_filter_nonneg _)
      unfold MetaVault.idle_assets at hgt ⊢
      dsimp only at hgt ⊢
      rw [hassets, hcum]
      split_ifs at hgt ⊢ with h5 h6 <;> linarith

/-- Aggregator used to witness the allocation theorem. -/
def allocW : MetaVault := { assets := 10, vaults := [freshVault] }

/-- Expected state of `allocW` after allocating 5 assets to its sub-vault. -/
def allocW' : MetaVault :=
  { assets := 5, allocated_vaults := [0],
    vaults := [{ freshVault with istate := { shares := 5, open_assets := 5 } }] }

/-- Witness for C6 at a concrete successful allocation of 5 out of 10 idle. -/
theorem allocate_idle_decrease_witness :
    allocW'.idle_assets = allocW.idle_assets -
      (MetaVault.dust_filter (MetaVault.shortfall_adjust [5] allocW.idle_assets)).sum ∧
    allocW'.cumulative_requested_withdrawals = allocW.cumulative_requested_withdrawals :=
  (allocate_idle_decrease allocW [0] [5] (by simp) (by simp) rfl
      (by simp [allocW]) (by norm_num)).2 allocW'
    (by norm_num [allocW, allocW', freshVault, MetaVault.action_allocate_assets,
      MetaVault.shortfall_adjust, MetaVault.dust_filter, DUST, MetaVault.apply_allocations,
      MetaVault.idle_assets, LogarithmVault.action_deposit, LogarithmVault.preview_deposit,
      LogarithmVault.cost_on_total, LogarithmVault.update_internal_state,
      ceil_to_6dp_as_floor, floor_to_6dp])

/-! ## C8: allocated-targets membership -/

theorem apply_allocations_mem (pairs : List (Nat × ℚ)) :
    ∀ (m m' : MetaVault), MetaVault.apply_allocations m pairs = (m', none) →
      ∀ x, (x ∈ m.allocated_vaults ∨ x ∈ pairs.map Prod.fst) →
        x ∈ m'.allocated_vaults := by
  induction pairs with
  | nil =>
    intro m m' h x hx
    simp only [MetaVault.apply_allocations, Prod.mk.injEq] at h
    obtain ⟨rfl, -⟩ := h
    rcases hx with hx | hx
    · exact hx
    · simp at hx
  | cons hd tl ih =>
    obtain ⟨t, amt⟩ := hd
    intro m m' h x hx
    rw [MetaVault.apply_allocations] at h
    cases hget : m.vaults[t]? with
    | none =>
      simp only [hget] at h
      simp at h
    | some v =>
      cases hdep : v.action_deposit amt with
      | error e =>
        simp only [hget, hdep] at h
        simp at h
      | ok pr =>
        obtain ⟨sh, v'⟩ := pr
        simp only [hget, hdep] at h
        apply ih _ _ h
        rcases hx with hx | hx
        · left
          dsimp only
          split_ifs with hc
          · exact hx
          · exact List.mem_append_left _ hx
        · simp only [List.map_cons, List.mem_cons] at hx
          rcases hx with rfl | hx
          · left
            dsimp only
            split_ifs with hc
            · exact hc
            · exact List.mem_append_right _ (by simp)
          · right
            exact hx

/-- Loop invariant of `apply_redeem_allocations` for pairwise-distinct
targets: after a successful run, a touched target is a member of the
allocated list exactly when it was before or its post-run shares are
nonzero (removal happens exactly at shares 0), and untouched indices keep
their membership and their vault. -/
theorem apply_redeem_allocations_mem (pairs : List (Nat × ℚ)) :
    ∀ (m m' : MetaVault), (pairs.map Prod.fst).Nodup →
      MetaVault.apply_redeem_allocations m pairs = (m', none) →
      (∀ p ∈ pairs, ∀ v', m'.vaults[p.1]? = some v' →
         (v'.istate.shares = 0 → p.1 ∉ m'.allocated_vaults) ∧
         (v'.istate.shares ≠ 0 →
           (p.1 ∈ m'.allocated_vaults ↔ p.1 ∈ m.allocated_vaults))) ∧
      (∀ x, x ∉ pairs.map Prod.fst →
         (x ∈ m'.allocated_vaults ↔ x ∈ m.allocated_vaults) ∧
         m'.vaults[x]? = m.vaults[x]?) := by
  induction pairs with
  | nil =>
    intro m m' _ h
    simp only [MetaVault.apply_redeem_allocations, Prod.mk.injEq] at h
    obtain ⟨rfl, -⟩ := h
    exact ⟨fun p hp => absurd hp (by simp), fun x _ => ⟨Iff.rfl, rfl⟩⟩
  | cons hd tl ih =>
    obtain ⟨t, a⟩ := hd
    intro m m' hnd h
    simp only [List.map_cons, List.nodup_cons] at hnd
    obtain ⟨htmem, hnd'⟩ := hnd
    rw [MetaVault.apply_redeem_allocations] at h
    cases hget : m.vaults[t]? with
    | none =>
      simp only [hget] at h
      injection h with h1 h2
      exact Option.noConfusion h2
    | some v =>
      cases hred : v.action_redeem a with
      | error e =>
        simp only [hget, hred] at h
        injection h with h1 h2
        exact Option.noConfusion h2
      | ok pr =>
        obtain ⟨assets, v₀⟩ := pr
        simp only [hget, hred] at h
        obtain ⟨ihp, ihu⟩ := ih _ _ hnd' h
        constructor
        · intro p hp v' hv'
          rcases List.mem_cons.mp hp with rfl | hp'
          · dsimp only at hv' ⊢
            have hunt := ihu t htmem
            obtain ⟨ht, -⟩ := List.getElem?_eq_some.mp hget
            have hset : ((m.vaults.set t v₀ : List LogarithmVault))[t]? = some v₀ :=
              List.getElem?_set_eq_of_lt _ ht
            rw [hunt.2] at hv'
            dsimp only at hv'
            rw [hset] at hv'
            injection hv' with hv''
            subst hv''
            constructor
            · intro hz
              rw [hunt.1]
              dsimp only
              rw [if_pos hz]
              intro hmem
              rw [List.mem_filter] at hmem
              simp at hmem
            · intro hnz
              rw [hunt.1]
              dsimp only
              rw [if_neg hnz]
          · have h1 := ihp p hp' v' hv'
            refine ⟨h1.1, fun hnz => (h1.2 hnz).trans ?_⟩
            have hne : p.1 ≠ t := fun he => htmem (he ▸ List.mem_map_of_mem Prod.fst hp')
            dsimp only
            split_ifs with hz
            · rw [List.mem_filter]
              simp [hne]
            · exact Iff.rfl
        · intro x hx
          simp only [List.map_cons, List.mem_cons] at hx
          push_neg at hx
          obtain ⟨hxt, hxtl⟩ := hx
          obtain ⟨hm1, hv1⟩ := ihu x hxtl
          constructor
          · rw [hm1]
            dsimp only
            split_ifs with hz
            · rw [List.mem_filter]
              simp [hxt]
            · exact Iff.rfl
          · rw [hv1]
            dsimp only
            exact List.getElem?_set_ne (fun he => hxt he.symm)

/-- Loop invariant of `apply_withdraw_allocations` for pairwise-distinct
targets: same membership semantics as the redemption loop. -/
theorem apply_withdraw_allocations_mem (pairs : List (Nat × ℚ)) :
    ∀ (m m' : MetaVault), (pairs.map Prod.fst).Nodup →
      MetaVault.apply_withdraw_allocations m pairs = (m', none) →
      (∀ p ∈ pairs, ∀ v', m'.vaults[p.1]? = some v' →
         (v'.istate.shares = 0 → p.1 ∉ m'.allocated_vaults) ∧
         (v'.istate.shares ≠ 0 →
           (p.1 ∈ m'.allocated_vaults ↔ p.1 ∈ m.allocated_vaults))) ∧
      (∀ x, x ∉ pairs.map Prod.fst →
         (x ∈ m'.allocated_vaults ↔ x ∈ m.allocated_vaults) ∧
         m'.vaults[x]? = m.vaults[x]?) := by
  induction pairs with
  | nil =>
    intro m m' _ h
    simp only [MetaVault.apply_withdraw_allocations, Prod.mk.injEq] at h
    obtain ⟨rfl, -⟩ := h
    exact ⟨fun p hp => absurd hp (by simp), fun x _ => ⟨Iff.rfl, rfl⟩⟩
  | cons hd tl ih =>
    obtain ⟨t, a⟩ := hd
    intro m m' hnd h
    simp only [List.map_cons, List.nodup_cons] at hnd
    obtain ⟨htmem, hnd'⟩ := hnd
    rw [MetaVault.apply_withdraw_allocations] at h
    cases hget : m.vaults[t]? with
    | none =>
      simp only [hget] at h
      injection h with h1 h2
      exact Option.noConfusion h2
    | some v =>
      cases hwd : v.action_withdraw a with
      | error e =>
        simp only [hget, hwd] at h
        injection h with h1 h2
        exact Option.noConfusion h2
      | ok pr =>
        obtain ⟨sh, v₀⟩ := pr
        simp only [hget, hwd] at h
        obtain ⟨ihp, ihu⟩ := ih _ _ hnd' h
        constructor
        · intro p hp v' hv'
          rcases List.mem_cons.mp hp with rfl | hp'
          · dsimp only at hv' ⊢
            have hunt := ihu t htmem
            obtain ⟨ht, -⟩ := List.getElem?_eq_some.mp hget
            have hset : ((m.vaults.set t v₀ : List LogarithmVault))[t]? = some v₀ :=
              List.getElem?_set_eq_of_lt _ ht
            rw [hunt.2] at hv'
            dsimp only at hv'
            rw [hset] at hv'
            injection hv' with hv''
            subst hv''
            constructor
            · intro hz
              rw [hunt.1]
              dsimp only
              rw [if_pos hz]
              intro hmem
              rw [List.mem_filter] at hmem
              simp at hmem
            · intro hnz
              rw [hunt.1]
              dsimp only
              rw [if_neg hnz]
          · have h1 := ihp p hp' v' hv'
            refine ⟨h1.1, fun hnz => (h1.2 hnz).trans ?_⟩
            have hne : p.1 ≠ t := fun he => htmem (he ▸ List.mem_map_of_mem Prod.fst hp')
            dsimp only
            split_ifs with hz
            · rw [List.mem_filter]
              simp [hne]
            · exact Iff.rfl
        · intro x hx
          simp only [List.map_cons, List.mem_cons] at hx
          push_neg at hx
          obtain ⟨hxt, hxtl⟩ := hx
          obtain ⟨hm1, hv1⟩ := ihu x hxtl
          constructor
          · rw [hm1]
            dsimp only
            split_ifs with hz
            · rw [List.mem_filter]
              simp [hxt]
            · exact Iff.rfl
          · rw [hv1]
            dsimp only
            exact List.getElem?_set_ne (fun he => hxt he.symm)

/-- Claim C8 (corrected): `action_allocate_assets` adds every target of a
successful batch to the allocated set, including targets whose adjusted
amount is zero (so membership is not equivalent to a nonzero share balance);
and for a successful `action_redeem_allocations` or
`action_withdraw_allocations` batch over pairwise-distinct targets, a target
is removed exactly when its `shares_held` returns to 0 — a target with
nonzero remaining shares keeps its previous membership — while every vault
outside the batch keeps its membership. -/
theorem allocated_membership_amended :
    (∀ (m : MetaVault) (targets : List Nat) (amounts : List ℚ) (m' : MetaVault),
       m.action_allocate_assets targets amounts = (m', none) →
       ∀ t ∈ targets, t ∈ m'.allocated_vaults) ∧
    (∀ (m : MetaVault) (targets : List Nat) (amounts : List ℚ) (m' : MetaVault),
       targets.Nodup →
       m.action_redeem_allocations targets amounts = (m', none) →
       (∀ t ∈ targets, ∀ v', m'.vaults[t]? = some v' →
          (v'.istate.shares = 0 → t ∉ m'.allocated_vaults) ∧
          (v'.istate.shares ≠ 0 → (t ∈ m'.allocated_vaults ↔ t ∈ m.allocated_vaults))) ∧
       (∀ x, x ∉ targets → (x ∈ m'.allocated_vaults ↔ x ∈ m.allocated_vaults))) ∧
    (∀ (m : MetaVault) (targets : List Nat) (amounts : List ℚ) (m' : MetaVault),
       targets.Nodup →
       m.action_withdraw_allocations targets amounts = (m', none) →
       (∀ t ∈ targets, ∀ v', m'.vaults[t]? = some v' →
          (v'.istate.shares = 0 → t ∉ m'.allocated_vaults) ∧
          (v'.istate.shares ≠ 0 → (t ∈ m'.allocated_vaults ↔ t ∈ m.allocated_vaults))) ∧
       (∀ x, x ∉ targets → (x ∈ m'.allocated_vaults ↔ x ∈ m.allocated_vaults))) := by
  refine ⟨?_, ?_, ?_⟩
  · intro m targets amounts m' h t ht
    unfold MetaVault.action_allocate_assets at h
    dsimp only at h
    split_ifs at h with g1 g2 g3 g4 g5
    all_goals try (injection h with h1 h2; exact Option.noConfusion h2)
    · apply apply_allocations_mem _ _ _ h
      right
      have hlen : targets.length = amounts.length := not_ne_iff.mp g2
      rw [List.map_fst_zip]
      · exact ht
      · rw [dust_filter_length, shortfall_adjust_length, ← hlen]
  · intro m targets amounts m' hnd h
    unfold MetaVault.action_redeem_allocations at h
    by_cases g1 : targets = [] ∨ amounts = []
    · rw [if_pos g1] at h
      injection h with h1 h2
      exact Option.noConfusion h2
    rw [if_neg g1] at h
    by_cases g2 : targets.length ≠ amounts.length
    · rw [if_pos g2] at h
      injection h with h1 h2
      exact Option.noConfusion h2
    rw [if_neg g2] at h
    by_cases g3 : ∀ t ∈ targets, t < m.vaults.length
    · rw [if_neg (not_not_intro g3)] at h
      cases hval : MetaVault.validate_redeem_pairs m (targets.zip amounts) with
      | some e =>
        simp only [hval] at h
        injection h with h1 h2
        exact Option.noConfusion h2
      | none =>
        simp only [hval] at h
        have hlen : targets.length = amounts.length := not_ne_iff.mp g2
        have hfst : (targets.zip amounts).map Prod.fst = targets :=
          List.map_fst_zip _ _ (le_of_eq hlen)
        obtain ⟨ihp, ihu⟩ :=
          apply_redeem_allocations_mem _ m m' (by rw [hfst]; exact hnd) h
        constructor
        · intro t ht v' hv'
          rw [← hfst] at ht
          obtain ⟨p, hp, hpt⟩ := List.mem_map.mp ht
          subst hpt
          exact ihp p hp v' hv'
        · intro x hx
          exact (ihu x (by rw [hfst]; exact hx)).1
    · rw [if_pos g3] at h
      injection h with h1 h2
      exact Option.noConfusion h2
  · intro m targets amounts m' hnd h
    unfold MetaVault.action_withdraw_allocations at h
    by_cases g1 : targets = [] ∨ amounts = []
    · rw [if_pos g1] at h
      injection h with h1 h2
      exact Option.noConfusion h2
    rw [if_neg g1] at h
    by_cases g2 : targets.length ≠ amounts.length
    · rw [if_pos g2] at h
      injection h with h1 h2
      exact Option.noConfusion h2
    rw [if_neg g2] at h
    by_cases g3 : ∀ t ∈ targets, t < m.vaults.length
    · rw [if_neg (not_not_intro g3)] at h
      cases hval : MetaVault.validate_withdraw_pairs m (targets.zip amounts) with
      | some e =>
        simp only [hval] at h
        injection h with h1 h2
        exact Option.noConfusion h2
      | none =>
        simp only [hval] at h
        have hlen : targets.length = amounts.length := not_ne_iff.mp g2
        have hfst : (targets.zip amounts).map Prod.fst = targets :=
          List.map_fst_zip _ _ (le_of_eq hlen)
        obtain ⟨ihp, ihu⟩ :=
          apply_withdraw_allocations_mem _ m m' (by rw [hfst]; exact hnd) h
        constructor
        · intro t ht v' hv'
          rw [← hfst] at ht
          obtain ⟨p, hp, hpt⟩ := List.mem_map.mp ht
          subst hpt
          exact ihp p hp v' hv'
        · intro x hx
          exact (ihu x (by rw [hfst]; exact hx)).1
    · rw [if_pos g3] at h
      injection h with h1 h2
      exact Option.noConfusion h2

/-- State of `dupRedeemMeta` after a full singleton redemption of its only
target. -/
def redeemW' : MetaVault :=
  { assets := 5,
    vaults := [{ dupTargetVault with istate := { shares := 0, open_assets := 0 } }] }

/-- Claim C8, counterexample: a successful allocation batch whose second
target's adjusted amount was dust-zeroed still adds that target to
`allocated_vaults`, leaving an allocated target with a zero share balance —
the membership set is not the set of vaults with nonzero shares. -/
theorem allocate_adds_zero_amount_target :
    (allocMeta.action_allocate_assets [0, 1] [5, 1/2000000]).2 = none ∧
    1 ∈ (allocMeta.action_allocate_assets [0, 1] [5, 1/2000000]).1.allocated_vaults ∧
    ((allocMeta.action_allocate_assets [0, 1] [5, 1/2000000]).1.vaults.getD 1 {}).istate.shares
      = 0 := by
  refine ⟨?_, ?_, ?_⟩ <;>
    norm_num [allocMeta, freshVault, MetaVault.action_allocate_assets,
      MetaVault.shortfall_adjust, MetaVault.dust_filter, DUST, MetaVault.apply_allocations,
      MetaVault.idle_assets, LogarithmVault.action_deposit, LogarithmVault.preview_deposit,
      LogarithmVault.cost_on_total, LogarithmVault.update_internal_state,
      ceil_to_6dp_as_floor, floor_to_6dp, List.getD, List.cons_ne_nil]

/-- Witness for C8 at a concrete full redemption batch. -/
theorem allocated_membership_amended_witness :
    (0 : Nat) ∉ redeemW'.allocated_vaults :=
  (((allocated_membership_amended.2.1 dupRedeemMeta [0] [5] redeemW'
      (by decide)
      (by norm_num [dupRedeemMeta, dupTargetVault, redeemW',
        MetaVault.action_redeem_allocations, MetaVault.validate_redeem_pairs,
        MetaVault.apply_redeem_allocations, LogarithmVault.action_redeem,
        LogarithmVault.preview_redeem, LogarithmVault.cost_on_total,
        LogarithmVault.update_internal_state, ceil_to_6dp_as_floor,
        floor_to_6dp])).1 0 (by simp)
      { dupTargetVault with istate := { shares := 0, open_assets := 0 } }
      (by simp [redeemW'])).1) rfl

/-! ## C2: batch atomicity -/

theorem validate_redeem_pairs_none (m : MetaVault) (pairs : List (Nat × ℚ)) :
    MetaVault.validate_redeem_pairs m pairs = none →
    ∀ p ∈ pairs, ∃ v, m.vaults[p.1]? = some v ∧ 0 ≤ p.2 ∧ p.2 ≤ v.istate.shares := by
  induction pairs with
  | nil =>
    intro _ p hp
    simp at hp
  | cons hd tl ih =>
    obtain ⟨t, a⟩ := hd
    intro h p hp
    rw [MetaVault.validate_redeem_pairs] at h
    by_cases hneg : a < 0
    · rw [if_pos hneg] at h
      exact Option.noConfusion h
    rw [if_neg hneg] at h
    cases hget : m.vaults[t]? with
    | none =>
      simp only [hget] at h
      exact Option.noConfusion h
    | some v =>
      simp only [hget] at h
      by_cases hgt : a > v.istate.shares
      · rw [if_pos hgt] at h
        exact Option.noConfusion h
      rw [if_neg hgt] at h
      rcases List.mem_cons.mp hp with rfl | hp'
      · exact ⟨v, hget, not_lt.mp hneg, not_lt.mp hgt⟩
      · exact ih h p hp'

theorem apply_redeem_allocations_ok (pairs : List (Nat × ℚ)) :
    ∀ (m : MetaVault),
      (pairs.map Prod.fst).Nodup →
      (∀ p ∈ pairs, ∃ v, m.vaults[p.1]? = some v ∧ 0 ≤ p.2 ∧ p.2 ≤ v.istate.shares) →
      (MetaVault.apply_redeem_allocations m pairs).2 = none := by
  induction pairs with
  | nil => intro m _ _; rfl
  | cons hd tl ih =>
    obtain ⟨t, a⟩ := hd
    intro m hnd hval
    simp only [List.map_cons, List.nodup_cons] at hnd
    obtain ⟨hnotmem, hnd'⟩ := hnd
    obtain ⟨v, hget, ha0, hale⟩ := hval (t, a) (by simp)
    have hred : v.action_redeem a = .ok (v.preview_redeem a,
        { v with istate :=
            LogarithmVault.update_internal_state v.istate (-a) (-(v.preview_redeem a)) }) := by
      unfold LogarithmVault.action_redeem
      rw [if_neg (not_lt.mpr ha0), if_neg (not_lt.mpr hale)]
    rw [MetaVault.apply_redeem_allocations]
    simp only [hget, hred]
    apply ih
    · exact hnd'
    · intro p hp
      obtain ⟨w, hw, h0, hle⟩ := hval p (List.mem_cons_of_mem _ hp)
      have hne : t ≠ p.1 := by
        intro he
        apply hnotmem
        rw [he]
        exact List.mem_map_of_mem Prod.fst hp
      refine ⟨w, ?_, h0, hle⟩
      dsimp only
      rw [List.getElem?_set_ne hne]
      exact hw

/-- Claim C2 (corrected): a batch rejected by the pre-validation phase leaves
all state unchanged, and `action_redeem_allocations` on pairwise-distinct
targets is fully atomic (any exception leaves the state unchanged); but an
exception raised during the apply phase — reachable with duplicated targets,
and for `action_withdraw_allocations` even with distinct targets — leaves the
earlier targets mutated. -/
theorem batch_atomicity_amended :
    (∀ (m : MetaVault) (targets : List Nat) (amounts : List ℚ) (m' : MetaVault) (e : Err),
       targets.Nodup →
       m.action_redeem_allocations targets amounts = (m', some e) → m' = m) ∧
    (∀ (m : MetaVault) (targets : List Nat) (amounts : List ℚ) (m' : MetaVault) (e : Err),
       m.action_redeem_allocations targets amounts = (m', some e) → m' ≠ m →
       MetaVault.validate_redeem_pairs m (targets.zip amounts) = none) ∧
    (∀ (m : MetaVault) (targets : List Nat) (amounts : List ℚ) (m' : MetaVault) (e : Err),
       m.action_withdraw_allocations targets amounts = (m', some e) → m' ≠ m →
       MetaVault.validate_withdraw_pairs m (targets.zip amounts) = none) := by
  refine ⟨?_, ?_, ?_⟩
  · intro m targets amounts m' e hnd h
    unfold MetaVault.action_redeem_allocations at h
    by_cases g1 : targets = [] ∨ amounts = []
    · rw [if_pos g1] at h
      injection h with h1 h2
      exact h1.symm
    rw [if_neg g1] at h
    by_cases g2 : targets.length ≠ amounts.length
    · rw [if_pos g2] at h
      injection h with h1 h2
      exact h1.symm
    rw [if_neg g2] at h
    by_cases g3 : ∀ t ∈ targets, t < m.vaults.length
    · rw [if_neg (not_not_intro g3)] at h
      cases hval : MetaVault.validate_redeem_pairs m (targets.zip amounts) with
      | some e' =>
        simp only [hval] at h
        injection h with h1 h2
        exact h1.symm
      | none =>
        simp only [hval] at h
        have hlen : targets.length = amounts.length := not_ne_iff.mp g2
        have hnodup : ((targets.zip amounts).map Prod.fst).Nodup := by
          rw [List.map_fst_zip _ _ (le_of_eq hlen)]
          exact hnd
        have hok := apply_redeem_allocations_ok _ m hnodup
          (validate_redeem_pairs_none m _ hval)
        rw [h] at hok
        exact Option.noConfusion hok
    · rw [if_pos g3] at h
      injection h with h1 h2
      exact h1.symm
  · intro m targets amounts m' e h hne
    unfold MetaVault.action_redeem_allocations at h
    by_cases g1 : targets = [] ∨ amounts = []
    · rw [if_pos g1] at h
      injection h with h1 h2
      exact absurd h1.symm hne
    rw [if_neg g1] at h
    by_cases g2 : targets.length ≠ amounts.length
    · rw [if_pos g2] at h
      injection h with h1 h2
      exact absurd h1.symm hne
    rw [if_neg g2] at h
    by_cases g3 : ∀ t ∈ targets, t < m.vaults.length
    · rw [if_neg (not_not_intro g3)] at h
      cases hval : MetaVault.validate_redeem_pairs m (targets.zip amounts) with
      | some e' =>
        simp only [hval] at h
        injection h with h1 h2
        exact absurd h1.symm hne
      | none => rfl
    · rw [if_pos g3] at h
      injection h with h1 h2
      exact absurd h1.symm hne
  · intro m targets amounts m' e h hne
    unfold MetaVault.action_withdraw_allocations at h
    by_cases g1 : targets = [] ∨ amounts = []
    · rw [if_pos g1] at h
      injection h with h1 h2
      exact absurd h1.symm hne
    rw [if_neg g1] at h
    by_cases g2 : targets.length ≠ amounts.length
    · rw [if_pos g2] at h
      injection h with h1 h2
      exact absurd h1.symm hne
    rw [if_neg g2] at h
    by_cases g3 : ∀ t ∈ targets, t < m.vaults.length
    · rw [if_neg (not_not_intro g3)] at h
      cases hval : MetaVault.validate_withdraw_pairs m (targets.zip amounts) with
      | some e' =>
        simp only [hval] at h
        injection h with h1 h2
        exact absurd h1.symm hne
      | none => rfl
    · rw [if_pos g3] at h
      injection h with h1 h2
      exact absurd h1.symm hne

/-- Claim C2, counterexample: a duplicated-target redemption batch passes
pre-validation, mutates the target on the first pair and raises on the
second, leaving the aggregator and target state changed; and a
`action_withdraw_allocations` batch over two distinct targets passes
pre-validation yet raises on its second pair after mutating the first
(rounding makes the shares to burn exceed the shares held). -/
theorem batch_atomicity_counterexample :
    ((dupRedeemMeta.action_redeem_allocations [0, 0] [5, 5]).2 = some Err.sharesExceedHeld ∧
     (dupRedeemMeta.action_redeem_allocations [0, 0] [5, 5]).1 ≠ dupRedeemMeta) ∧
    (([0, 1] : List Nat).Nodup ∧
     (distinctWithdrawMeta.action_withdraw_allocations [0, 1] [1/2, 7000008/10000000]).2 =
        some Err.notEnoughShares ∧
     (distinctWithdrawMeta.action_withdraw_allocations [0, 1] [1/2, 7000008/10000000]).1 ≠
        distinctWithdrawMeta) := by
  constructor
  · constructor <;>
      norm_num [dupRedeemMeta, dupTargetVault, MetaVault.action_redeem_allocations,
        MetaVault.validate_redeem_pairs, MetaVault.apply_redeem_allocations,
        LogarithmVault.action_redeem, LogarithmVault.preview_redeem,
        LogarithmVault.cost_on_total, LogarithmVault.update_internal_state,
        ceil_to_6dp_as_floor, floor_to_6dp, List.cons_ne_nil]
  · refine ⟨by decide, ?_, ?_⟩ <;>
      norm_num [distinctWithdrawMeta, roundingTrapVault,
        MetaVault.action_withdraw_allocations, MetaVault.validate_withdraw_pairs,
        MetaVault.apply_withdraw_allocations, LogarithmVault.action_withdraw,
        LogarithmVault.balance, LogarithmVault.preview_redeem,
        LogarithmVault.preview_withdraw, LogarithmVault.cost_on_total,
        LogarithmVault.cost_on_raw, LogarithmVault.update_internal_state,
        ceil_to_6dp_as_floor, floor_to_6dp, List.cons_ne_nil]

/-- Witness for C2 at a concrete batch rejected by pre-validation: the state
is returned unchanged. -/
theorem batch_atomicity_amended_witness :
    (dupRedeemMeta.action_redeem_allocations [0] [6]).1 = dupRedeemMeta :=
  batch_atomicity_amended.1 dupRedeemMeta [0] [6]
    (dupRedeemMeta.action_redeem_allocations [0] [6]).1 Err.amountExceedsTarget
    (by decide)
    (by norm_num [dupRedeemMeta, dupTargetVault, MetaVault.action_redeem_allocations,
      MetaVault.validate_redeem_pairs, MetaVault.apply_redeem_allocations,
      LogarithmVault.action_redeem, LogarithmVault.preview_redeem,
      LogarithmVault.cost_on_total, LogarithmVault.update_internal_state,
      ceil_to_6dp_as_floor, floor_to_6dp, List.cons_ne_nil])

/-! ## C9: validator totality -/

theorem check_withdraw_pairs_ok (balances : List (String × ℚ)) (pairs : List (String × ℚ)) :
    (∀ p ∈ pairs, (balances.lookup p.1).isSome) →
    ∃ fb, check_withdraw_pairs balances pairs = .ok fb := by
  induction pairs with
  | nil => exact fun _ => ⟨_, rfl⟩
  | cons hd tl ih =>
    obtain ⟨n, w⟩ := hd
    intro h
    have hs := h (n, w) (by simp)
    rw [check_withdraw_pairs]
    cases hb : balances.lookup n with
    | none =>
      rw [hb] at hs
      simp at hs
    | some b =>
      simp only [hb]
      split_ifs with h1 h2
      · exact ⟨_, rfl⟩
      · exact ⟨_, rfl⟩
      · exact ih (fun p hp => h p (List.mem_cons_of_mem _ hp))

theorem check_redeem_pairs_ok (balances : List (String × ℚ)) (pairs : List (String × ℚ)) :
    (∀ p ∈ pairs, (balances.lookup p.1).isSome) →
    ∃ fb, check_redeem_pairs balances pairs = .ok fb := by
  induction pairs with
  | nil => exact fun _ => ⟨_, rfl⟩
  | cons hd tl ih =>
    obtain ⟨n, w⟩ := hd
    intro h
    have hs := h (n, w) (by simp)
    rw [check_redeem_pairs]
    cases hb : balances.lookup n with
    | none =>
      rw [hb] at hs
      simp at hs
    | some b =>
      simp only [hb]
      split_ifs with h1 h2
      · exact ⟨_, rfl⟩
      · exact ⟨_, rfl⟩
      · exact ih (fun p hp => h p (List.mem_cons_of_mem _ hp))

/-- Claim C9, counterexample: `validate_withdraw` on a balances table missing
the listed vault name raises `KeyError` (the `balances[vault_name]` lookup in
its per-pair loop) instead of returning a pass/fail feedback value. -/
theorem validate_withdraw_keyerror :
    validate_withdraw 0 ["a"] [0] [] = .error .keyError := by
  norm_num [validate_withdraw, check_withdraw_pairs, List.lookup]

/-- Claim C9 (corrected): `validate_allocation` and `validate_reallocation`
are total, and `validate_withdraw` / `validate_redeem` return a pass/fail
feedback value without raising provided every listed vault name occurs in the
balances table (a missing name raises `KeyError`); none of them mutates any
state, and `validate_reallocation` fails whenever the weights of a non-empty
batch do not sum to exactly 1 or some weight lies outside `[0, 1]`. -/
theorem validators_total_amended :
    (∀ (total : ℚ) (names : List String) (ws : List ℚ) (balances : List (String × ℚ)),
       (∀ n ∈ names, (balances.lookup n).isSome) →
       ∃ fb, validate_withdraw total names ws balances = .ok fb) ∧
    (∀ (names : List String) (ss : List ℚ) (balances : List (String × ℚ)),
       (∀ n ∈ names, (balances.lookup n).isSome) →
       ∃ fb, validate_redeem names ss balances = .ok fb) ∧
    (∀ (names : List String) (ws : List ℚ),
       names ≠ [] → (ws.sum ≠ 1 ∨ ∃ w ∈ ws, w < 0 ∨ w > 1) →
       (validate_reallocation names ws).result = .fail) := by
  refine ⟨?_, ?_, ?_⟩
  · intro total names ws balances hbal
    unfold validate_withdraw
    split_ifs with h1 h2 h3
    · exact ⟨_, rfl⟩
    · exact ⟨_, rfl⟩
    · exact ⟨_, rfl⟩
    · apply check_withdraw_pairs_ok
      rintro ⟨n, w⟩ hp
      exact hbal n (List.of_mem_zip hp).1
  · intro names ss balances hbal
    unfold validate_redeem
    split_ifs with h0 h1 h2
    · exact ⟨_, rfl⟩
    · exact ⟨_, rfl⟩
    · apply check_redeem_pairs_ok
      rintro ⟨n, w⟩ hp
      exact hbal n (List.of_mem_zip hp).1
    · exact ⟨_, rfl⟩
  · intro names ws hne hcond
    unfold validate_reallocation
    rw [if_pos (fun h => hne (List.length_eq_zero.mp h))]
    split_ifs with hlen hout hsum
    · rfl
    · rfl
    · rfl
    · exfalso
      rcases hcond with hs | hex
      · exact hs (not_ne_iff.mp hsum)
      · exact hout hex

/-- Witness for C9: a singleton reallocation whose weight sums to 2 fails. -/
theorem validators_total_amended_witness :
    (validate_reallocation ["a"] [2]).result = .fail :=
  validators_total_amended.2.2 ["a"] [2] (by simp)
    (Or.inl (by norm_num))

end CuratorAgent
